import Mathlib

/-!
Verification development for the lp-pitch-tool repository.

The Python sources are shallowly embedded over `List Char`:
  * `src/pdf_generator.py` — the markdown-dialect renderer
    (`_add_formatted_text`), the highlighted callout box
    (`add_highlight_box`);
  * `src/lp_pitch.py` — the research aggregator (`research_lp`),
    citation deduplication, the JSON code-fence stripping of
    `generate_personalized_pitch`, and `format_pitch_output`;
  * `src/streamlit_app.py` — the highlight-box HTML interpolation.

Python strings are modelled as `List Char`; Python `str.split`,
`str.strip`, `re.split` on the bold pattern, and `dict.get` are
modelled by executable functions below, each annotated with the source
construct it embeds.
-/

namespace LPPitch

/-- Python strings, modelled as lists of characters. -/
abbrev Str := List Char

/-- The whitespace characters stripped by Python `str.strip()` (ASCII range). -/
def isWS (c : Char) : Bool :=
  c = ' ' || c = '\t' || c = '\n' || c = '\r' || c = '\x0b' || c = '\x0c'

/-- Python `s.strip()`: remove leading and trailing whitespace. -/
def pyStrip (l : Str) : Str :=
  ((l.dropWhile isWS).reverse.dropWhile isWS).reverse

/-- Erase every whitespace character (used to compare text up to whitespace). -/
def removeWS (l : Str) : Str :=
  l.filter (fun c => !isWS c)

/-- Concatenation of a list of lists (no separator). -/
def joinAll {α : Type} : List (List α) → List α
  | [] => []
  | x :: xs => x ++ joinAll xs

/-- Concatenation with a separator between consecutive pieces
(Python `sep.join(pieces)`). -/
def joinSep (sep : Str) : List Str → Str
  | [] => []
  | [x] => x
  | x :: y :: xs => x ++ sep ++ joinSep sep (y :: xs)

/-- Prepend a character to the first piece of a split result. -/
def consHead (c : Char) : List Str → List Str
  | [] => [[c]]
  | h :: t => (c :: h) :: t

/-- Fuelled worker for `splitSeq`.  Scans left to right; whenever the
separator occurs at the current position it is consumed (non-overlapping
occurrences, exactly as Python `str.split`).  The fuel only bounds the
recursion; `splitSeq` supplies `l.length`, which always suffices because
every step consumes at least one character. -/
def splitSeqF (sep : Str) : Nat → Str → List Str
  | _, [] => [[]]
  | 0, l => [l]
  | fuel + 1, c :: rest =>
    if sep.isPrefixOf (c :: rest) && !sep.isEmpty then
      [] :: splitSeqF sep fuel ((c :: rest).drop sep.length)
    else
      consHead c (splitSeqF sep fuel rest)

/-- Python `s.split(sep)` for a non-empty separator: non-overlapping,
left-to-right, keeping empty pieces. -/
def splitSeq (sep l : Str) : List Str :=
  splitSeqF sep l.length l

/-- Python `sep in s`: does `sep` occur as a contiguous substring? -/
def hasSeq (sep : Str) : Str → Bool
  | [] => sep.isEmpty
  | c :: rest => sep.isPrefixOf (c :: rest) || hasSeq sep rest

/-- The text strictly before the first occurrence of `sep`
(the whole string when `sep` does not occur). -/
def upToFirstSeq (sep : Str) : Str → Str
  | [] => []
  | c :: rest =>
    if sep.isPrefixOf (c :: rest) then [] else c :: upToFirstSeq sep rest

/-- The text strictly after the first occurrence of `sep`
(empty when `sep` does not occur). -/
def afterFirstSeq (sep : Str) : Str → Str
  | [] => []
  | c :: rest =>
    if sep.isPrefixOf (c :: rest) then (c :: rest).drop sep.length
    else afterFirstSeq sep rest

/-- `hay` contains `needle` as a contiguous substring. -/
def containsSub (needle hay : Str) : Prop :=
  ∃ p q, hay = p ++ needle ++ q

/-- `hay` contains `needle` as a contiguous run of elements (the
polymorphic analogue of `containsSub`, used for operation traces). -/
def sliceOf {α : Type} (needle hay : List α) : Prop :=
  ∃ p q, hay = p ++ needle ++ q

/-!
## Dialect renderer (`src/pdf_generator.py`, `_add_formatted_text`)

`_add_formatted_text(text, width)` splits `text` on `"\n\n"` into
paragraphs, skips paragraphs whose `strip()` is empty, splits each
paragraph on `"\n"` into lines, strips each line and skips empty ones,
splits each line with `re.split` on the pattern of a double-starred non-star run, and emits
for each part either one bold cell (when the part both starts and ends
with `"**"`, with text `part[2:-2]`) or one plain cell `word + ' '` per
non-empty word of `part.split(' ')`.  We record the emitted cells as
spans; cursor movement and cell widths are layout-only and not part of
the span stream.
-/

/-- One emitted text cell: bold flag and the literal cell text. -/
structure Span where
  bold : Bool
  text : Str
deriving DecidableEq

/-- Does the regex pattern `\*\*[^*]+\*\*` match at the very start of `l`?
If so, return the matched text (including its `**` delimiters) and the rest
of the string.  `[^*]+` is a non-empty run of non-asterisk characters;
because it cannot contain `*`, greedy matching takes the maximal run and
the match succeeds exactly when two `*` follow that run. -/
def nonStar (c : Char) : Bool := c ≠ '*'

def matchBoldAt : Str → Option (Str × Str)
  | c1 :: c2 :: rest =>
    if c1 = '*' ∧ c2 = '*' then
      if (rest.takeWhile nonStar).isEmpty then none
      else
        match rest.dropWhile nonStar with
        | a1 :: a2 :: rest2 =>
          if a1 = '*' ∧ a2 = '*' then
            some (c1 :: c2 :: (rest.takeWhile nonStar ++ [a1, a2]), rest2)
          else none
        | _ => none
    else none
  | _ => none

/-- Fuelled worker for `splitBold`: Python `re.split` on the captured bold pattern,
which alternates unmatched text with the captured matches (keeping empty
pieces).  The scan tries each start position left to right, exactly as the
regex engine does.  `splitBold` supplies fuel `l.length`, which suffices
because every step consumes at least one character. -/
def splitBoldF : Nat → Str → List Str
  | _, [] => [[]]
  | 0, l => [l]
  | fuel + 1, c :: rest =>
    match matchBoldAt (c :: rest) with
    | some (part, rest2) => [] :: part :: splitBoldF fuel rest2
    | none => consHead c (splitBoldF fuel rest)

/-- Python `re.split` on the captured bold pattern. -/
def splitBold (l : Str) : List Str :=
  splitBoldF l.length l

/-- Python: part starts with two stars and ends with two stars. -/
def isBoldPart (p : Str) : Bool :=
  ['*', '*'].isPrefixOf p && ['*', '*'].isSuffixOf p

/-- Python `part[2:-2]`. -/
def debold (p : Str) : Str :=
  (p.drop 2).take (p.length - 4)

/-- The spans emitted for one regex part: a single bold cell for a
bold-classified part, otherwise one plain cell `word + ' '` per non-empty
word of `part.split(' ')` (empty parts emit nothing, matching
`elif part:`). -/
def processPart (p : Str) : List Span :=
  if isBoldPart p then [⟨true, debold p⟩]
  else ((splitSeq [' '] p).filter (fun w => !w.isEmpty)).map
    (fun w => ⟨false, w ++ [' ']⟩)

/-- The spans emitted for one line: `line = line.strip()`; empty lines are
skipped; otherwise each regex part is processed in order. -/
def processLine (l : Str) : List Span :=
  if (pyStrip l).isEmpty then []
  else joinAll ((splitBold (pyStrip l)).map processPart)

/-- The spans emitted for one paragraph: paragraphs whose `strip()` is
empty are skipped; otherwise the paragraph is split on `'\n'` into lines. -/
def processPara (p : Str) : List Span :=
  if (pyStrip p).isEmpty then []
  else joinAll ((splitSeq ['\n'] p).map processLine)

/-- `_add_formatted_text(text, width)` as a span stream: `if not text:
return`, then split on `"\n\n"` into paragraphs and process each. -/
def add_formatted_text (t : Str) : List Span :=
  if t.isEmpty then []
  else joinAll ((splitSeq ['\n', '\n'] t).map processPara)

/-- The concatenated text carried by a span stream, in order. -/
def concatText (spans : List Span) : Str :=
  joinAll (spans.map Span.text)

/-!
Reference definition for claim C1: the input with the bold-marker
characters removed.  It performs the *same* paragraph/line/part
decomposition as the renderer but keeps every part verbatim, only
stripping the `**` delimiters of bold-classified parts (`part[2:-2]`,
exactly the text the renderer keeps for such a part).
-/

/-- A part with its bold markers removed (verbatim for plain parts). -/
def stripPart (p : Str) : Str :=
  if isBoldPart p then debold p else p

/-- One line with bold markers removed (same stripping/skipping as the
renderer). -/
def stripLine (l : Str) : Str :=
  if (pyStrip l).isEmpty then []
  else joinAll ((splitBold (pyStrip l)).map stripPart)

/-- One paragraph with bold markers removed. -/
def stripPara (p : Str) : Str :=
  if (pyStrip p).isEmpty then []
  else joinAll ((splitSeq ['\n'] p).map stripLine)

/-- The whole input with bold-marker characters removed, under the
the paragraph/line/part decomposition of the renderer itself. -/
def stripMarkers (t : Str) : Str :=
  if t.isEmpty then []
  else joinAll ((splitSeq ['\n', '\n'] t).map stripPara)

/-!
## Highlighted callout box (`src/pdf_generator.py`, `add_highlight_box`)

The source computes (fpdf units, floats modelled exactly as rationals):
`lines = len(text) / 80 + text.count('\n') + 1`,
`box_height = max(lines * 6 + 10, 20)`, then draws the background
filled rectangle `rect(x, y, 190, box_height)`, the left border line,
the formatted text, and finally `set_y(y + box_height + 4)`.
-/

/-- `box_height` of `add_highlight_box` (true division, no rounding). -/
def boxHeight (t : Str) : ℚ :=
  max (((t.length : ℚ) / 80 + (t.count '\n' : ℚ) + 1) * 6 + 10) 20

/-- The drawing operations of `add_highlight_box` relevant to geometry:
background rectangle, left border line, the formatted-text cells, and the
final cursor move.  Colour and font selection are omitted. -/
inductive DrawOp where
  | rect (x y w h : ℚ) (fill : Bool)
  | borderLine (x1 y1 x2 y2 : ℚ)
  | textCells (spans : List Span)
  | setY (y : ℚ)
deriving DecidableEq

/-- `add_highlight_box(text)` as its ordered trace of drawing operations,
starting from cursor position `(x, y)`. -/
def add_highlight_box (x y : ℚ) (t : Str) : List DrawOp :=
  [ .rect x y 190 (boxHeight t) true,
    .borderLine x y x (y + boxHeight t),
    .textCells (add_formatted_text t),
    .setY (y + boxHeight t + 4) ]

/-- Modelled from the spec: the words of claim C5 — the box height computed from a
conservative, rounded-up wrapped-line estimate, i.e. `len(text)/80`
rounded up to an integer line count before the `* 6 + 10` sizing. -/
def roundedUpBoxHeight (t : Str) : ℚ :=
  max (((⌈(t.length : ℚ) / 80⌉ : ℚ) + (t.count '\n' : ℚ) + 1) * 6 + 10) 20

/-!
## Research aggregator (`src/lp_pitch.py`, `research_lp`)

`research_lp` checks the API key, then issues three queries strictly in
sequence inside one `try` block.  The network call `_perplexity_query` is
modelled as an oracle `Nat → Except Str QueryAns` giving the outcome of
each query (the query text itself does not affect the control flow or the
result shape, so it is not embedded).  On the first failing query the
`except` branch returns `{"error": str(e), "research": "", "lp_name":
lp_name}` — note `research` is always the empty string there.  The second
component of the result records which queries were issued. -/

/-- One Perplexity answer: generated text and its citation list. -/
structure QueryAns where
  text : Str
  citations : List Str
deriving DecidableEq

/-- The dictionary returned by `research_lp` (absent keys are `none`). -/
structure RLPResult where
  error : Option Str
  research : Str
  citations : Option (List Str)
  lp_name : Option Str
deriving DecidableEq

/-- Python `list(dict.fromkeys(all_citations))`: insertion-ordered
deduplication — each element is appended the first time it is seen. -/
def dedupFirst {α : Type} [DecidableEq α] (l : List α) : List α :=
  l.foldl (fun acc a => if a ∈ acc then acc else acc ++ [a]) []

/-- Section built for query 1. -/
def sectionOverview (r : QueryAns) : Str :=
  "## Organisation Overview\n\n".toList ++ r.text

/-- Section built for query 2. -/
def sectionHistory (r : QueryAns) : Str :=
  "## Investment Focus & History\n\n".toList ++ r.text

/-- Section built for query 3. -/
def sectionNews (r : QueryAns) : Str :=
  "## Recent News & Priorities\n\n".toList ++ r.text

/-- The sources trailer: a heading line followed by one dashed line per
citation, joined with newlines. -/
def sourcesBlock (cs : List Str) : Str :=
  "\n\n## Sources\n".toList ++ joinSep ['\n'] (cs.map (fun c => "- ".toList ++ c))

/-- `research_lp(lp_name)`: result dictionary plus the list of issued
query indices (0, 1, 2 in order; a failing query aborts the rest). -/
def research_lp (apiKey : Option Str) (oracle : Nat → Except Str QueryAns)
    (lp_name : Str) : RLPResult × List Nat :=
  match apiKey with
  | none =>
    ({ error := some "No Perplexity API key found".toList, research := [],
       citations := none, lp_name := none }, [])
  | some _ =>
    match oracle 0 with
    | .error e =>
      ({ error := some e, research := [], citations := none,
         lp_name := some lp_name }, [0])
    | .ok r1 =>
      match oracle 1 with
      | .error e =>
        ({ error := some e, research := [], citations := none,
           lp_name := some lp_name }, [0, 1])
      | .ok r2 =>
        match oracle 2 with
        | .error e =>
          ({ error := some e, research := [], citations := none,
             lp_name := some lp_name }, [0, 1, 2])
        | .ok r3 =>
          let uniq := dedupFirst (r1.citations ++ r2.citations ++ r3.citations)
          let researchText :=
            joinSep ['\n', '\n']
              [sectionOverview r1, sectionHistory r2, sectionNews r3] ++
            (if uniq.isEmpty then [] else sourcesBlock uniq)
          ({ error := none, research := researchText, citations := some uniq,
             lp_name := some lp_name }, [0, 1, 2])

/-!
## JSON fence stripping (`src/lp_pitch.py`, `generate_personalized_pitch`)

After the model call, the source runs:
`if "```json" in content: content = content.split("```json")[1].split("```")[0]`
`elif "```" in content: content = content.split("```")[1].split("```")[0]`
and then `json.loads(content)`; a `json.JSONDecodeError` is answered with
`{"error": ..., "raw_response": content}` where `content` has already been
reassigned to the fence-stripped text.  `json.loads` is external and is
modelled as an oracle `jparse`. -/

/-- The `"```json"` marker. -/
def jsonFence : Str := "```json".toList

/-- The `"```"` marker. -/
def ticks : Str := "```".toList

/-- The fence-stripping reassignment of `content`. -/
def stripFence (content : Str) : Str :=
  if hasSeq jsonFence content then
    (splitSeq ticks ((splitSeq jsonFence content).getD 1 [])).getD 0 []
  else if hasSeq ticks content then
    (splitSeq ticks ((splitSeq ticks content).getD 1 [])).getD 0 []
  else content

/-- Outcome of the parse step: parsed value, or the structured error
dictionary whose `raw_response` field is recorded. -/
inductive PitchOutcome (V : Type) where
  | ok (v : V)
  | errorRaw (raw : Str)
deriving DecidableEq

/-- The fence-strip-then-parse step of `generate_personalized_pitch`. -/
def generate_pitch_parse {V : Type} (jparse : Str → Option V)
    (content : Str) : PitchOutcome V :=
  match jparse (stripFence content) with
  | some v => .ok v
  | none => .errorRaw (stripFence content)

/-- Modelled from the spec: the words of claim C10 — the text strictly between the
first `"```json"` marker and the next `"```"` after it (to the end when no
`"```"` follows). -/
def specExtract (content : Str) : Str :=
  upToFirstSeq ticks (afterFirstSeq jsonFence content)

/-!
## Markdown formatting (`src/lp_pitch.py`, `format_pitch_output`)

The output is one f-string; we record it as the ordered list of its
segments (fixed literals alternating with the interpolated field values)
and concatenate.  `datetime.now()` is impure and passed in as `date`.
The `pitch` and `research` dictionaries are association lists; `.get`
with a default is `pget` / `rget`. -/

/-- The placeholder substituted for a missing pitch field. -/
def naText : Str := "N/A".toList

/-- Python: pitch.get of the key, defaulting to the placeholder. -/
def pget (pitch : List (Str × Str)) (k : Str) : Str :=
  (pitch.lookup k).getD naText

/-- Python: research.get of the research key, with its default text. -/
def rget (research : List (Str × Str)) : Str :=
  (research.lookup "research".toList).getD "No research available".toList

/-- The nine PitchRecord keys, in output order. -/
def pitchKeys : List Str :=
  [ "lp_summary".toList, "opening_hook".toList, "thesis_framing".toList,
    "tailwinds_emphasis".toList, "team_highlights".toList,
    "value_add_framing".toList, "anticipated_questions".toList,
    "conversation_starters".toList, "risks_to_address".toList ]

/-- The nine per-field section headings of the markdown document. -/
def sectionHeads : List Str :=
  [ "## LP Profile Summary".toList, "## Opening Hook".toList,
    "## Investment Thesis Framing".toList,
    "## Key Market Tailwinds to Emphasise".toList,
    "## Team & Advisors to Feature".toList, "## Value-Add Framing".toList,
    "## Anticipated Questions & Answers".toList,
    "## Conversation Starters".toList,
    "## Potential Concerns to Address".toList ]

/-- The segments of the `format_pitch_output` f-string, in order. -/
def pitchSegments (lp_name date : Str) (research pitch : List (Str × Str)) :
    List Str :=
  [ "# Bramble Investments - Personalised Pitch for ".toList, lp_name,
    "\n*Generated: ".toList, date,
    "*\n\n---\n\n## LP Profile Summary\n\n".toList,
    pget pitch "lp_summary".toList,
    "\n\n---\n\n## Opening Hook\n\n> ".toList,
    pget pitch "opening_hook".toList,
    "\n\n---\n\n## Investment Thesis Framing\n\n".toList,
    pget pitch "thesis_framing".toList,
    "\n\n---\n\n## Key Market Tailwinds to Emphasise\n\n".toList,
    pget pitch "tailwinds_emphasis".toList,
    "\n\n---\n\n## Team & Advisors to Feature\n\n".toList,
    pget pitch "team_highlights".toList,
    "\n\n---\n\n## Value-Add Framing\n\n".toList,
    pget pitch "value_add_framing".toList,
    "\n\n---\n\n## Anticipated Questions & Answers\n\n".toList,
    pget pitch "anticipated_questions".toList,
    "\n\n---\n\n## Conversation Starters\n\n".toList,
    pget pitch "conversation_starters".toList,
    "\n\n---\n\n## Potential Concerns to Address\n\n".toList,
    pget pitch "risks_to_address".toList,
    "\n\n---\n\n## Research Notes\n\n<details>\n<summary>Click to expand full LP research</summary>\n\n".toList,
    rget research,
    "\n\n</details>\n".toList ]

/-- `format_pitch_output(lp_name, research, pitch)`. -/
def format_pitch_output (lp_name date : Str)
    (research pitch : List (Str × Str)) : Str :=
  joinAll (pitchSegments lp_name date research pitch)

/-- The literal markdown text immediately preceding the interpolated
value of each of the nine fields in `format_pitch_output` (its section
heading segment); empty for strings that are not PitchRecord keys. -/
def mdLeadIn (k : Str) : Str :=
  if k = "lp_summary".toList then
    "*\n\n---\n\n## LP Profile Summary\n\n".toList
  else if k = "opening_hook".toList then
    "\n\n---\n\n## Opening Hook\n\n> ".toList
  else if k = "thesis_framing".toList then
    "\n\n---\n\n## Investment Thesis Framing\n\n".toList
  else if k = "tailwinds_emphasis".toList then
    "\n\n---\n\n## Key Market Tailwinds to Emphasise\n\n".toList
  else if k = "team_highlights".toList then
    "\n\n---\n\n## Team & Advisors to Feature\n\n".toList
  else if k = "value_add_framing".toList then
    "\n\n---\n\n## Value-Add Framing\n\n".toList
  else if k = "anticipated_questions".toList then
    "\n\n---\n\n## Anticipated Questions & Answers\n\n".toList
  else if k = "conversation_starters".toList then
    "\n\n---\n\n## Conversation Starters\n\n".toList
  else if k = "risks_to_address".toList then
    "\n\n---\n\n## Potential Concerns to Address\n\n".toList
  else []

/-!
## PDF generation (`src/pdf_generator.py`, `generate_pdf`, lines 173-235)

`generate_pdf(lp_name, pitch, research)` builds the PDF by one fixed
sequence of drawing calls: a title, a subtitle embedding the LP name and
the generation date, then for each of the nine pitch fields a section
header followed by either a highlighted box (`lp_summary` with the
default style, `opening_hook` with the hook style, `risks_to_address`
with the warning style) or body text, each reading its field with
`pitch.get` with the placeholder default, and a closing footer cell.  We record this call
sequence as a trace of document operations; `datetime.now()` is impure
and passed in as `genDate`, and the `research` argument is accepted and
never read, exactly as in the source. -/

/-- One document-building call made by `generate_pdf`. -/
inductive PdfOp where
  | title (text : Str)
  | subtitle (text : Str)
  | sectionHeader (text : Str)
  | highlightBox (text : Str) (boxType : Str)
  | bodyText (text : Str)
  | footerCell (text : Str)
deriving DecidableEq

/-- `generate_pdf(lp_name, pitch, research)` as its ordered trace of
document operations. -/
def generate_pdf (lp_name genDate : Str)
    (pitch _research : List (Str × Str)) : List PdfOp :=
  [ .title "Bramble Investments".toList,
    .subtitle ("Personalised Pitch for ".toList ++ lp_name ++
      "\nGenerated: ".toList ++ genDate),
    .sectionHeader "LP Profile".toList,
    .highlightBox (pget pitch "lp_summary".toList) "default".toList,
    .sectionHeader "Opening Hook".toList,
    .highlightBox (pget pitch "opening_hook".toList) "hook".toList,
    .sectionHeader "Investment Thesis Framing".toList,
    .bodyText (pget pitch "thesis_framing".toList),
    .sectionHeader "Market Tailwinds to Emphasise".toList,
    .bodyText (pget pitch "tailwinds_emphasis".toList),
    .sectionHeader "Team & Advisors to Feature".toList,
    .bodyText (pget pitch "team_highlights".toList),
    .sectionHeader "Value-Add Framing".toList,
    .bodyText (pget pitch "value_add_framing".toList),
    .sectionHeader "Anticipated Questions".toList,
    .bodyText (pget pitch "anticipated_questions".toList),
    .sectionHeader "Conversation Starters".toList,
    .bodyText (pget pitch "conversation_starters".toList),
    .sectionHeader "Potential Concerns to Address".toList,
    .highlightBox (pget pitch "risks_to_address".toList) "warning".toList,
    .footerCell "Prepared by Bramble LP Pitch Tool | Confidential".toList ]

/-- The nine section headers drawn by `generate_pdf`, in order. -/
def pdfSectionHeads : List Str :=
  [ "LP Profile".toList, "Opening Hook".toList,
    "Investment Thesis Framing".toList,
    "Market Tailwinds to Emphasise".toList,
    "Team & Advisors to Feature".toList, "Value-Add Framing".toList,
    "Anticipated Questions".toList, "Conversation Starters".toList,
    "Potential Concerns to Address".toList ]

/-- The pair of adjacent operations that `generate_pdf` emits for one
field: its section header, then the operation rendering that field
(box or body text as in the source); empty for strings that are not
PitchRecord keys. -/
def pdfFieldSlice (pitch : List (Str × Str)) (k : Str) : List PdfOp :=
  if k = "lp_summary".toList then
    [ .sectionHeader "LP Profile".toList,
      .highlightBox (pget pitch k) "default".toList ]
  else if k = "opening_hook".toList then
    [ .sectionHeader "Opening Hook".toList,
      .highlightBox (pget pitch k) "hook".toList ]
  else if k = "thesis_framing".toList then
    [ .sectionHeader "Investment Thesis Framing".toList,
      .bodyText (pget pitch k) ]
  else if k = "tailwinds_emphasis".toList then
    [ .sectionHeader "Market Tailwinds to Emphasise".toList,
      .bodyText (pget pitch k) ]
  else if k = "team_highlights".toList then
    [ .sectionHeader "Team & Advisors to Feature".toList,
      .bodyText (pget pitch k) ]
  else if k = "value_add_framing".toList then
    [ .sectionHeader "Value-Add Framing".toList,
      .bodyText (pget pitch k) ]
  else if k = "anticipated_questions".toList then
    [ .sectionHeader "Anticipated Questions".toList,
      .bodyText (pget pitch k) ]
  else if k = "conversation_starters".toList then
    [ .sectionHeader "Conversation Starters".toList,
      .bodyText (pget pitch k) ]
  else if k = "risks_to_address".toList then
    [ .sectionHeader "Potential Concerns to Address".toList,
      .highlightBox (pget pitch k) "warning".toList ]
  else []

/-!
## HTML/CSS rendering path (`src/streamlit_app.py`, line 167)

The call to st.markdown with unsafe html enabled interpolates the field
text directly into the div markup string, with no escaping. -/

/-- The fixed markup before the interpolated field text. -/
def divOpen : Str := "<div class=\"highlight-box\">".toList

/-- The fixed markup after the interpolated field text. -/
def divClose : Str := "</div>".toList

/-- The markup string produced for the highlight box. -/
def highlight_box_markup (fieldText : Str) : Str :=
  divOpen ++ fieldText ++ divClose

/-!
## Concrete fixtures used by counterexamples and witnesses
-/

/-- An oracle whose first two queries succeed and whose third fails. -/
def failThirdOracle : Nat → Except Str QueryAns := fun i =>
  if i = 0 then .ok ⟨"T1".toList, []⟩
  else if i = 1 then .ok ⟨"T2".toList, []⟩
  else .error "boom".toList

/-- A pitch record holding six of the nine keys (missing
`thesis_framing`, `anticipated_questions` and `risks_to_address`). -/
def sixKeyPitch : List (Str × Str) :=
  [ ("lp_summary".toList, "S".toList),
    ("opening_hook".toList, "H".toList),
    ("tailwinds_emphasis".toList, "T".toList),
    ("team_highlights".toList, "M".toList),
    ("value_add_framing".toList, "V".toList),
    ("conversation_starters".toList, "C".toList) ]

/-! ## Generic lemmas about the string utilities -/

theorem joinAll_append {α : Type} (L1 L2 : List (List α)) :
    joinAll (L1 ++ L2) = joinAll L1 ++ joinAll L2 := by
  induction L1 with
  | nil => rfl
  | cons x xs ih => simp [joinAll, ih]

theorem mem_joinAll {α : Type} {a : α} {L : List (List α)} :
    a ∈ joinAll L ↔ ∃ l ∈ L, a ∈ l := by
  induction L with
  | nil => simp [joinAll]
  | cons x xs ih =>
    simp only [joinAll, List.mem_append, ih, List.mem_cons]
    constructor
    · rintro (hx | ⟨l, hl, hal⟩)
      · exact ⟨x, Or.inl rfl, hx⟩
      · exact ⟨l, Or.inr hl, hal⟩
    · rintro ⟨l, hl | hl, hal⟩
      · exact Or.inl (hl ▸ hal)
      · exact Or.inr ⟨l, hl, hal⟩

theorem joinAll_map_congr {α β : Type} {f g : α → List β} {L : List α}
    (h : ∀ x ∈ L, f x = g x) : joinAll (L.map f) = joinAll (L.map g) := by
  induction L with
  | nil => rfl
  | cons x xs ih =>
    simp only [List.map_cons, joinAll]
    rw [h x (by simp), ih (fun a ha => h a (by simp [ha]))]

theorem joinAll_map_filter_isEmpty {β : Type} (f : Str → List β) (L : List Str)
    (hf : f [] = []) :
    joinAll ((L.filter (fun w => !w.isEmpty)).map f) = joinAll (L.map f) := by
  induction L with
  | nil => rfl
  | cons x xs ih =>
    by_cases hx : x.isEmpty
    · have hx' : x = [] := by simpa [List.isEmpty_iff] using hx
      simp [List.filter_cons, hx, joinAll, ih, hx', hf]
    · simp [List.filter_cons, hx, joinAll, ih]

theorem removeWS_append (a b : Str) :
    removeWS (a ++ b) = removeWS a ++ removeWS b :=
  List.filter_append a b

theorem removeWS_joinAll (L : List Str) :
    removeWS (joinAll L) = joinAll (L.map removeWS) := by
  induction L with
  | nil => rfl
  | cons x xs ih => simp [joinAll, removeWS_append, ih]

theorem concatText_append (a b : List Span) :
    concatText (a ++ b) = concatText a ++ concatText b := by
  simp [concatText, joinAll_append]

theorem concatText_joinAll (L : List (List Span)) :
    concatText (joinAll L) = joinAll (L.map concatText) := by
  induction L with
  | nil => rfl
  | cons x xs ih => simp [joinAll, concatText_append, ih]

theorem consHead_ne_nil (c : Char) (L : List Str) : consHead c L ≠ [] := by
  cases L <;> simp [consHead]

theorem joinAll_consHead (c : Char) (L : List Str) :
    joinAll (consHead c L) = c :: joinAll L := by
  cases L <;> simp [consHead, joinAll]

theorem joinSep_consHead (sep : Str) (c : Char) (L : List Str) :
    joinSep sep (consHead c L) = c :: joinSep sep L := by
  match L with
  | [] => simp [consHead, joinSep]
  | [x] => simp [consHead, joinSep]
  | x :: y :: xs => simp [consHead, joinSep]

theorem splitSeqF_ne_nil (sep : Str) (fuel : Nat) (l : Str) :
    splitSeqF sep fuel l ≠ [] := by
  match fuel, l with
  | _, [] => simp [splitSeqF]
  | 0, c :: rest => simp [splitSeqF]
  | fuel + 1, c :: rest =>
    simp only [splitSeqF]
    split
    · simp
    · exact consHead_ne_nil c _

theorem isPre_iff {l1 l2 : Str} : l1.isPrefixOf l2 = true ↔ l1 <+: l2 :=
  List.isPrefixOf_iff_prefix

theorem prefix_append_drop {sep l : Str} (h : sep.isPrefixOf l) :
    sep ++ l.drop sep.length = l := by
  obtain ⟨t, ht⟩ := isPre_iff.mp h
  rw [← ht, List.drop_left]

theorem joinSep_splitSeqF (sep : Str) (fuel : Nat) (l : Str) :
    joinSep sep (splitSeqF sep fuel l) = l := by
  induction fuel generalizing l with
  | zero => cases l <;> simp [splitSeqF, joinSep]
  | succ fuel ih =>
    match l with
    | [] => simp [splitSeqF, joinSep]
    | c :: rest =>
      simp only [splitSeqF]
      split
      case isTrue hp =>
        have hpre : sep.isPrefixOf (c :: rest) :=
          (Bool.and_eq_true _ _ |>.mp hp).1
        cases hS : splitSeqF sep fuel ((c :: rest).drop sep.length) with
        | nil => exact absurd hS (splitSeqF_ne_nil sep fuel _)
        | cons h t =>
          have hj : joinSep sep (h :: t) = (c :: rest).drop sep.length := by
            rw [← hS, ih]
          show joinSep sep ([] :: h :: t) = c :: rest
          have : joinSep sep ([] :: h :: t) = sep ++ joinSep sep (h :: t) := by
            simp [joinSep]
          rw [this, hj, prefix_append_drop hpre]
      case isFalse hp =>
        rw [joinSep_consHead, ih]

theorem joinSep_splitSeq (sep l : Str) : joinSep sep (splitSeq sep l) = l :=
  joinSep_splitSeqF sep l.length l

theorem splitSeqF_single (sep : Str) (fuel : Nat) {l : Str}
    (h : hasSeq sep l = false) : splitSeqF sep fuel l = [l] := by
  induction fuel generalizing l with
  | zero => cases l <;> simp [splitSeqF]
  | succ fuel ih =>
    match l with
    | [] => simp [splitSeqF]
    | c :: rest =>
      have h2 := h
      simp only [hasSeq, Bool.or_eq_false_iff] at h2
      simp only [splitSeqF, h2.1, Bool.false_and, if_false]
      rw [ih h2.2]
      simp [consHead]

theorem splitSeq_single (sep : Str) {l : Str} (h : hasSeq sep l = false) :
    splitSeq sep l = [l] :=
  splitSeqF_single sep l.length h

theorem upToFirstSeq_eq_self (sep : Str) {l : Str} (h : hasSeq sep l = false) :
    upToFirstSeq sep l = l := by
  induction l with
  | nil => rfl
  | cons c rest ih =>
    simp only [hasSeq, Bool.or_eq_false_iff] at h
    simp [upToFirstSeq, h.1, ih h.2]

theorem upToFirstSeq_isPre (sep l : Str) : upToFirstSeq sep l <+: l := by
  induction l with
  | nil => exact List.nil_prefix
  | cons c rest ih =>
    simp only [upToFirstSeq]
    split
    · exact List.nil_prefix
    · exact List.cons_prefix_cons.mpr ⟨rfl, ih⟩

theorem hasSeq_mono {t s : Str} (hts : t <+: s) {l : Str}
    (h : hasSeq s l = true) : hasSeq t l = true := by
  induction l with
  | nil =>
    simp only [hasSeq, List.isEmpty_iff] at h ⊢
    subst h
    exact List.prefix_nil.mp hts
  | cons c rest ih =>
    simp only [hasSeq, Bool.or_eq_true] at h ⊢
    rcases h with h | h
    · exact Or.inl (isPre_iff.mpr
        (hts.trans (isPre_iff.mp h)))
    · exact Or.inr (ih h)

theorem hasSeq_upToFirstSeq (s0 : Char) (s' l : Str) :
    hasSeq (s0 :: s') (upToFirstSeq (s0 :: s') l) = false := by
  induction l with
  | nil => rfl
  | cons c rest ih =>
    simp only [upToFirstSeq]
    split
    case isTrue => rfl
    case isFalse hp =>
      simp only [hasSeq, Bool.or_eq_false_iff]
      refine ⟨?_, ih⟩
      by_contra hcon
      have h1 : (s0 :: s').isPrefixOf (c :: upToFirstSeq (s0 :: s') rest) = true :=
        Bool.of_not_eq_false hcon
      have h2 : (s0 :: s') <+: (c :: rest) :=
        (isPre_iff.mp h1).trans
          (List.cons_prefix_cons.mpr ⟨rfl, upToFirstSeq_isPre _ _⟩)
      exact hp (isPre_iff.mpr h2)

theorem hasSeq_false_of_head {c : Char} (s' : Str) {l : Str} (h : c ∉ l) :
    hasSeq (c :: s') l = false := by
  induction l with
  | nil => rfl
  | cons c0 rest ih =>
    simp only [hasSeq, Bool.or_eq_false_iff]
    constructor
    · by_contra hcon
      have h1 := Bool.of_not_eq_false hcon
      have h2 := (List.cons_prefix_cons.mp (isPre_iff.mp h1)).1
      exact h (h2 ▸ List.mem_cons_self c0 rest)
    · exact ih (fun hm => h (List.mem_cons_of_mem c0 hm))

theorem splitSeqF_getD_zero (sep : Str) (hs : sep ≠ []) (fuel : Nat) :
    ∀ l : Str, l.length ≤ fuel →
      (splitSeqF sep fuel l).getD 0 [] = upToFirstSeq sep l := by
  induction fuel with
  | zero =>
    intro l hl
    have : l = [] := List.length_eq_zero.mp (Nat.le_zero.mp hl)
    subst this
    rfl
  | succ fuel ih =>
    intro l hl
    match l with
    | [] => rfl
    | c :: rest =>
      have hne : (!sep.isEmpty) = true := by
        cases sep with
        | nil => exact absurd rfl hs
        | cons a b => rfl
      cases hp : sep.isPrefixOf (c :: rest) with
      | true => simp [splitSeqF, upToFirstSeq, hp, hne]
      | false =>
        simp only [splitSeqF, upToFirstSeq, hp, Bool.false_and,
          Bool.false_eq_true, if_false]
        cases hS : splitSeqF sep fuel rest with
        | nil => exact absurd hS (splitSeqF_ne_nil sep fuel rest)
        | cons h t =>
          have hz := ih rest (Nat.le_of_succ_le_succ (by simpa using hl))
          rw [hS] at hz
          simp only [consHead, List.getD_cons_zero] at hz ⊢
          rw [hz]

theorem splitSeqF_getD_one (sep : Str) (hs : sep ≠ []) (fuel : Nat) :
    ∀ l : Str, l.length ≤ fuel → hasSeq sep l = true →
      (splitSeqF sep fuel l).getD 1 [] =
        upToFirstSeq sep (afterFirstSeq sep l) := by
  induction fuel with
  | zero =>
    intro l hl h
    have : l = [] := List.length_eq_zero.mp (Nat.le_zero.mp hl)
    subst this
    simp only [hasSeq, List.isEmpty_iff] at h
    exact absurd h hs
  | succ fuel ih =>
    intro l hl h
    match l with
    | [] =>
      simp only [hasSeq, List.isEmpty_iff] at h
      exact absurd h hs
    | c :: rest =>
      have hne : (!sep.isEmpty) = true := by
        cases sep with
        | nil => exact absurd rfl hs
        | cons a b => rfl
      have hsep1 : 1 ≤ sep.length := by
        cases sep with
        | nil => exact absurd rfl hs
        | cons a b => simp
      cases hp : sep.isPrefixOf (c :: rest) with
      | true =>
        have hlen : ((c :: rest).drop sep.length).length ≤ fuel := by
          have hl' : rest.length + 1 ≤ fuel + 1 := by simpa using hl
          simp only [List.length_drop, List.length_cons]
          omega
        have hz := splitSeqF_getD_zero sep hs fuel
          ((c :: rest).drop sep.length) hlen
        simp only [splitSeqF, afterFirstSeq, hp, hne, Bool.true_and, if_true,
          List.getD_cons_succ, List.getD_cons_zero]
        exact hz
      | false =>
        have hrest : hasSeq sep rest = true := by
          simp only [hasSeq, hp, Bool.false_or] at h
          exact h
        simp only [splitSeqF, afterFirstSeq, hp, Bool.false_and,
          Bool.false_eq_true, if_false]
        cases hS : splitSeqF sep fuel rest with
        | nil => exact absurd hS (splitSeqF_ne_nil sep fuel rest)
        | cons h0 t =>
          have hz := ih rest (Nat.le_of_succ_le_succ (by simpa using hl)) hrest
          rw [hS] at hz
          simpa [consHead] using hz

theorem splitSeq_getD_zero (sep : Str) (hs : sep ≠ []) (l : Str) :
    (splitSeq sep l).getD 0 [] = upToFirstSeq sep l :=
  splitSeqF_getD_zero sep hs l.length l (Nat.le_refl _)

theorem splitSeq_getD_one (sep : Str) (hs : sep ≠ []) {l : Str}
    (h : hasSeq sep l = true) :
    (splitSeq sep l).getD 1 [] = upToFirstSeq sep (afterFirstSeq sep l) :=
  splitSeqF_getD_one sep hs l.length l (Nat.le_refl _) h

theorem notMem_of_mem_splitSeqF_singleton (c : Char) (fuel : Nat) :
    ∀ l : Str, l.length ≤ fuel → ∀ p ∈ splitSeqF [c] fuel l, c ∉ p := by
  induction fuel with
  | zero =>
    intro l hl p hp
    have : l = [] := List.length_eq_zero.mp (Nat.le_zero.mp hl)
    subst this
    simp only [splitSeqF, List.mem_singleton] at hp
    simp [hp]
  | succ fuel ih =>
    intro l hl p hp
    match l with
    | [] =>
      simp only [splitSeqF, List.mem_singleton] at hp
      simp [hp]
    | c0 :: rest =>
      have hl' : rest.length ≤ fuel := Nat.le_of_succ_le_succ (by simpa using hl)
      by_cases hc : c = c0
      · subst hc
        have hpre : ([c].isPrefixOf (c :: rest)) = true := by
          simp [List.isPrefixOf]
        simp only [splitSeqF, hpre, Bool.true_and, List.isEmpty_cons,
          Bool.not_false, if_true, List.length_singleton, List.drop_one,
          List.tail_cons, List.mem_cons] at hp
        rcases hp with hp | hp
        · simp [hp]
        · exact ih rest hl' p hp
      · have hpre : ([c].isPrefixOf (c0 :: rest)) = false := by
          simp [List.isPrefixOf]
          exact fun hcc => absurd hcc hc
        simp only [splitSeqF, hpre, Bool.false_and, Bool.false_eq_true,
          if_false] at hp
        cases hS : splitSeqF [c] fuel rest with
        | nil => exact absurd hS (splitSeqF_ne_nil [c] fuel rest)
        | cons h0 t =>
          rw [hS] at hp
          simp only [consHead, List.mem_cons] at hp
          rcases hp with hp | hp
          · subst hp
            intro hmem
            rcases List.mem_cons.mp hmem with hmem | hmem
            · exact hc hmem
            · exact ih rest hl' h0 (hS ▸ List.mem_cons_self h0 t) hmem
          · exact ih rest hl' p (hS ▸ List.mem_cons_of_mem h0 hp)

theorem notMem_of_mem_splitSeq_singleton {c : Char} {l p : Str}
    (hp : p ∈ splitSeq [c] l) : c ∉ p :=
  notMem_of_mem_splitSeqF_singleton c l.length l (Nat.le_refl _) p hp

theorem removeWS_cons (c : Char) (l : Str) :
    removeWS (c :: l) = if isWS c then removeWS l else c :: removeWS l := by
  simp only [removeWS, List.filter_cons]
  cases h : isWS c <;> simp [h]

theorem removeWS_dropWhileWS (l : Str) :
    removeWS (l.dropWhile isWS) = removeWS l := by
  induction l with
  | nil => rfl
  | cons c rest ih =>
    cases h : isWS c with
    | true => simp [List.dropWhile_cons, h, ih, removeWS_cons]
    | false => simp [List.dropWhile_cons, h]

theorem removeWS_reverse (l : Str) :
    removeWS l.reverse = (removeWS l).reverse :=
  List.filter_reverse _ l

theorem removeWS_pyStrip (l : Str) : removeWS (pyStrip l) = removeWS l := by
  simp only [pyStrip]
  rw [removeWS_reverse, removeWS_dropWhileWS, removeWS_reverse,
    List.reverse_reverse, removeWS_dropWhileWS]

theorem removeWS_eq_nil_of_strip {l : Str} (h : (pyStrip l).isEmpty = true) :
    removeWS l = [] := by
  have h' : pyStrip l = [] := List.isEmpty_iff.mp h
  rw [← removeWS_pyStrip, h']
  rfl

theorem pyStrip_subset (l : Str) : pyStrip l ⊆ l := by
  intro a ha
  simp only [pyStrip, List.mem_reverse] at ha
  have h1 := (List.dropWhile_sublist (l := (l.dropWhile isWS).reverse) isWS).subset ha
  rw [List.mem_reverse] at h1
  exact (List.dropWhile_sublist isWS).subset h1

theorem removeWS_single_space : removeWS [' '] = [] := rfl

theorem removeWS_word (w : Str) : removeWS (w ++ [' ']) = removeWS w := by
  rw [removeWS_append, removeWS_single_space, List.append_nil]

theorem mem_joinSep {x : Char} {sep : Str} :
    ∀ {L : List Str} {w : Str}, w ∈ L → x ∈ w → x ∈ joinSep sep L := by
  intro L
  induction L with
  | nil => intro w hw; simp at hw
  | cons a L ih =>
    intro w hw hx
    match L with
    | [] =>
      simp only [List.mem_singleton] at hw
      subst hw
      exact hx
    | b :: L' =>
      simp only [joinSep, List.mem_append]
      rcases List.mem_cons.mp hw with hw | hw
      · subst hw
        exact Or.inl (Or.inl hx)
      · exact Or.inr (ih hw hx)

theorem removeWS_joinSep_space (L : List Str) :
    removeWS (joinSep [' '] L) = joinAll (L.map removeWS) := by
  induction L with
  | nil => rfl
  | cons x L ih =>
    match L with
    | [] => simp [joinSep, joinAll]
    | y :: L' =>
      simp only [joinSep, List.map_cons, joinAll]
      rw [removeWS_append, removeWS_append, removeWS_single_space,
        List.append_nil]
      rw [show joinSep [' '] (y :: L') = joinSep [' '] (y :: L') from rfl] at ih
      simp only [List.map_cons, joinAll] at ih
      rw [ih]

/-! ## Lemmas about the bold-marker split -/

theorem matchBoldAt_append {l part rest2 : Str}
    (h : matchBoldAt l = some (part, rest2)) : part ++ rest2 = l := by
  match l with
  | [] => simp [matchBoldAt] at h
  | [c1] => simp [matchBoldAt] at h
  | c1 :: c2 :: rest =>
    simp only [matchBoldAt] at h
    split at h
    case isTrue h12 =>
      split at h
      case isTrue => simp at h
      case isFalse hin =>
        cases hd : rest.dropWhile nonStar with
        | nil => simp [hd] at h
        | cons a1 rest' =>
          cases rest' with
          | nil => simp [hd] at h
          | cons a2 rest2' =>
            simp only [hd] at h
            split at h
            case isTrue ha =>
              simp only [Option.some_inj, Prod.mk.injEq] at h
              obtain ⟨hpart, hrest⟩ := h
              subst hpart
              subst hrest
              have htd : rest.takeWhile nonStar ++ (a1 :: a2 :: rest2') =
                  rest := by
                rw [← hd]
                exact List.takeWhile_append_dropWhile _ _
              simp only [List.cons_append, List.cons.injEq, true_and,
                List.append_assoc]
              simpa using htd
            case isFalse => simp at h
    case isFalse => simp at h

theorem joinAll_splitBoldF (fuel : Nat) :
    ∀ l : Str, joinAll (splitBoldF fuel l) = l := by
  induction fuel with
  | zero => intro l; cases l <;> simp [splitBoldF, joinAll]
  | succ fuel ih =>
    intro l
    match l with
    | [] => simp [splitBoldF, joinAll]
    | c :: rest =>
      simp only [splitBoldF]
      cases hm : matchBoldAt (c :: rest) with
      | none => rw [joinAll_consHead, ih rest]
      | some pr =>
        obtain ⟨part, rest2⟩ := pr
        simp only [joinAll, List.nil_append]
        rw [ih rest2]
        exact matchBoldAt_append hm

theorem joinAll_splitBold (l : Str) : joinAll (splitBold l) = l :=
  joinAll_splitBoldF l.length l

theorem mem_of_mem_splitBold {l p : Str} {a : Char}
    (hp : p ∈ splitBold l) (ha : a ∈ p) : a ∈ l := by
  have : a ∈ joinAll (splitBold l) := mem_joinAll.mpr ⟨p, hp, ha⟩
  rwa [joinAll_splitBold] at this

theorem mem_of_mem_debold {p : Str} {a : Char} (ha : a ∈ debold p) : a ∈ p := by
  simp only [debold] at ha
  exact List.drop_subset 2 p (List.take_subset _ _ ha)

/-! ## Per-part, per-line, per-paragraph text preservation -/

theorem removeWS_processPart (p : Str) :
    removeWS (concatText (processPart p)) = removeWS (stripPart p) := by
  by_cases hb : isBoldPart p = true
  · rw [processPart, if_pos hb, stripPart, if_pos hb]
    simp [concatText, joinAll]
  · rw [processPart, if_neg hb, stripPart, if_neg hb]
    calc removeWS (concatText
          (((splitSeq [' '] p).filter (fun w => !w.isEmpty)).map
            (fun w => Span.mk false (w ++ [' ']))))
        = joinAll ((((splitSeq [' '] p).filter (fun w => !w.isEmpty)).map
            (fun w => w ++ [' '])).map removeWS) := by
          simp only [concatText, List.map_map, removeWS_joinAll]
          rfl
      _ = joinAll (((splitSeq [' '] p).filter (fun w => !w.isEmpty)).map
            removeWS) := by
          rw [List.map_map]
          exact joinAll_map_congr (fun w _ => removeWS_word w)
      _ = joinAll ((splitSeq [' '] p).map removeWS) :=
          joinAll_map_filter_isEmpty removeWS _ rfl
      _ = removeWS (joinSep [' '] (splitSeq [' '] p)) :=
          (removeWS_joinSep_space _).symm
      _ = removeWS p := by rw [joinSep_splitSeq]

theorem removeWS_processLine (l : Str) :
    removeWS (concatText (processLine l)) = removeWS (stripLine l) := by
  by_cases he : (pyStrip l).isEmpty = true
  · rw [processLine, if_pos he, stripLine, if_pos he]
    simp [concatText, joinAll]
  · rw [processLine, if_neg he, stripLine, if_neg he]
    rw [concatText_joinAll, List.map_map, removeWS_joinAll, removeWS_joinAll,
      List.map_map, List.map_map]
    exact joinAll_map_congr (fun p _ => removeWS_processPart p)

theorem removeWS_processPara (p : Str) :
    removeWS (concatText (processPara p)) = removeWS (stripPara p) := by
  by_cases he : (pyStrip p).isEmpty = true
  · rw [processPara, if_pos he, stripPara, if_pos he]
    simp [concatText, joinAll]
  · rw [processPara, if_neg he, stripPara, if_neg he]
    rw [concatText_joinAll, List.map_map, removeWS_joinAll, removeWS_joinAll,
      List.map_map, List.map_map]
    exact joinAll_map_congr (fun l _ => removeWS_processLine l)

/-! ## Structure of the spans emitted for one regex part -/

theorem mem_processPart {p : Str} {sp : Span} (h : sp ∈ processPart p) :
    (sp.bold = true ∧ sp.text = debold p) ∨
    (∃ w, sp.bold = false ∧ sp.text = w ++ [' '] ∧ w ≠ [] ∧
      w ∈ splitSeq [' '] p) := by
  by_cases hb : isBoldPart p = true
  · rw [processPart, if_pos hb] at h
    simp only [List.mem_singleton] at h
    subst h
    exact Or.inl ⟨rfl, rfl⟩
  · rw [processPart, if_neg hb] at h
    rw [List.mem_map] at h
    obtain ⟨w, hw, rfl⟩ := h
    rw [List.mem_filter] at hw
    refine Or.inr ⟨w, rfl, rfl, ?_, hw.1⟩
    intro hnil
    subst hnil
    simp at hw

theorem shape_of_mem_add_formatted_text {t : Str} {sp : Span}
    (h : sp ∈ add_formatted_text t) :
    ∃ line part, ('\n' ∉ line) ∧ part ∈ splitBold (pyStrip line) ∧
      sp ∈ processPart part := by
  simp only [add_formatted_text] at h
  split at h
  case isTrue => simp at h
  case isFalse =>
    rw [mem_joinAll] at h
    obtain ⟨spansPara, hmem, hsp⟩ := h
    rw [List.mem_map] at hmem
    obtain ⟨para, _, rfl⟩ := hmem
    simp only [processPara] at hsp
    split at hsp
    case isTrue => simp at hsp
    case isFalse =>
      rw [mem_joinAll] at hsp
      obtain ⟨spansLine, hmem2, hsp2⟩ := hsp
      rw [List.mem_map] at hmem2
      obtain ⟨line, hline, rfl⟩ := hmem2
      simp only [processLine] at hsp2
      split at hsp2
      case isTrue => simp at hsp2
      case isFalse =>
        rw [mem_joinAll] at hsp2
        obtain ⟨spansPart, hmem3, hsp3⟩ := hsp2
        rw [List.mem_map] at hmem3
        obtain ⟨part, hpart, rfl⟩ := hmem3
        exact ⟨line, part, notMem_of_mem_splitSeq_singleton hline, hpart, hsp3⟩

/-! ## Lemmas about citation deduplication -/

theorem dedup_foldl_nodup {α : Type} [DecidableEq α] :
    ∀ (l acc : List α), acc.Nodup →
      (l.foldl (fun acc a => if a ∈ acc then acc else acc ++ [a]) acc).Nodup := by
  intro l
  induction l with
  | nil => intro acc h; exact h
  | cons a l ih =>
    intro acc h
    simp only [List.foldl_cons]
    apply ih
    by_cases ha : a ∈ acc
    · rw [if_pos ha]; exact h
    · rw [if_neg ha]
      simp [List.nodup_append, h, ha]

theorem dedup_foldl_mem {α : Type} [DecidableEq α] :
    ∀ (l acc : List α) (x : α),
      (x ∈ l.foldl (fun acc a => if a ∈ acc then acc else acc ++ [a]) acc) ↔
        x ∈ acc ∨ x ∈ l := by
  intro l
  induction l with
  | nil => intro acc x; simp
  | cons a l ih =>
    intro acc x
    simp only [List.foldl_cons]
    rw [ih]
    by_cases ha : a ∈ acc
    · rw [if_pos ha]
      constructor
      · rintro (h | h)
        · exact Or.inl h
        · exact Or.inr (List.mem_cons_of_mem a h)
      · rintro (h | h)
        · exact Or.inl h
        · rcases List.mem_cons.mp h with h | h
          · exact Or.inl (h ▸ ha)
          · exact Or.inr h
    · rw [if_neg ha]
      simp [List.mem_append, or_assoc]

theorem dedup_foldl_sublist {α : Type} [DecidableEq α] :
    ∀ (l acc : List α),
      List.Sublist
        (l.foldl (fun acc a => if a ∈ acc then acc else acc ++ [a]) acc)
        (acc ++ l) := by
  intro l
  induction l with
  | nil => intro acc; simp
  | cons a l ih =>
    intro acc
    simp only [List.foldl_cons]
    apply (ih _).trans
    by_cases ha : a ∈ acc
    · rw [if_pos ha]
      exact List.Sublist.append_left (List.sublist_cons_self a l) acc
    · rw [if_neg ha]
      rw [List.append_assoc]
      simp [List.Sublist.refl]

theorem dedupFirst_nodup {α : Type} [DecidableEq α] (l : List α) :
    (dedupFirst l).Nodup :=
  dedup_foldl_nodup l [] List.nodup_nil

theorem dedupFirst_mem {α : Type} [DecidableEq α] (l : List α) (x : α) :
    x ∈ dedupFirst l ↔ x ∈ l := by
  rw [dedupFirst, dedup_foldl_mem]
  simp

theorem dedupFirst_sublist {α : Type} [DecidableEq α] (l : List α) :
    List.Sublist (dedupFirst l) l := by
  have h := dedup_foldl_sublist l ([] : List α)
  simpa using h

/-! ## Lemmas about substring containment -/

theorem containsSub_trans {a b c : Str} (h1 : containsSub a b)
    (h2 : containsSub b c) : containsSub a c := by
  obtain ⟨p, q, rfl⟩ := h1
  obtain ⟨r, s, rfl⟩ := h2
  exact ⟨r ++ p, q ++ s, by simp [List.append_assoc]⟩

theorem containsSub_joinAll {x : Str} {L : List Str} (hx : x ∈ L) :
    containsSub x (joinAll L) := by
  obtain ⟨s, t, rfl⟩ := List.append_of_mem hx
  refine ⟨joinAll s, joinAll t, ?_⟩
  rw [joinAll_append]
  simp [joinAll, List.append_assoc]

theorem containsSub_joinAll_cons {p a : Str} {t : List Str}
    (h : containsSub p (joinAll t)) : containsSub p (joinAll (a :: t)) := by
  obtain ⟨u, v, hv⟩ := h
  exact ⟨a ++ u, v, by simp [joinAll, hv, List.append_assoc]⟩

theorem containsSub_joinAll_pair (x y : Str) (t : List Str) :
    containsSub (x ++ y) (joinAll (x :: y :: t)) :=
  ⟨[], joinAll t, by simp [joinAll, List.append_assoc]⟩

theorem sliceOf_self_append {α : Type} (needle q : List α) :
    sliceOf needle (needle ++ q) :=
  ⟨[], q, by simp⟩

theorem sliceOf_cons {α : Type} {needle : List α} {a : α} {t : List α}
    (h : sliceOf needle t) : sliceOf needle (a :: t) := by
  obtain ⟨u, v, hv⟩ := h
  exact ⟨a :: u, v, by simp [hv]⟩

/-! ## Claim C1 -/

/-- C1 (counterexample): the exact equality stated by the claim fails — for the input
`"a"` (which contains no bold markers at all) the concatenated span text is
`"a "`, with a trailing space appended, which is not the input string. -/
theorem c1_exact_equality_fails :
    concatText (add_formatted_text "a".toList) = "a ".toList ∧
    "a ".toList ≠ "a".toList :=
  ⟨by decide, by decide⟩

/-- C1 (amended): for every input string, the concatenation of the text of
all emitted spans equals the input with the bold-marker characters removed,
up to whitespace — erasing all whitespace characters from both sides gives
equal strings.  (The renderer re-emits each plain word with a single
trailing space and drops line/paragraph whitespace, so only the
non-whitespace characters are preserved exactly.) -/
theorem c1_span_text_preserved_up_to_whitespace (t : Str) :
    removeWS (concatText (add_formatted_text t)) =
      removeWS (stripMarkers t) := by
  by_cases he : t.isEmpty = true
  · rw [add_formatted_text, if_pos he, stripMarkers, if_pos he]
    rfl
  · rw [add_formatted_text, if_neg he, stripMarkers, if_neg he]
    rw [concatText_joinAll, List.map_map, removeWS_joinAll, removeWS_joinAll,
      List.map_map, List.map_map]
    exact joinAll_map_congr (fun p _ => removeWS_processPara p)

/-! ## Claim C2 -/

/-- C2 (counterexample): malformed bold markers do not always degrade to
literal text — the input `"***"` is rendered as a single bold span with
empty text, so its characters are dropped entirely rather than kept
literally. -/
theorem c2_allstar_marker_dropped :
    add_formatted_text "***".toList = [⟨true, []⟩] ∧
    concatText (add_formatted_text "***".toList) = [] ∧
    removeWS "***".toList ≠ [] :=
  ⟨by decide, by decide, by decide⟩

/-- C2 (amended): rendering is total — every input string (empty,
unterminated markers, literal asterisks) yields a well-formed span list
with no failure path: every emitted span carries newline-free text, and
every plain span is one non-empty word followed by a single space. -/
theorem c2_rendering_total_wellformed (t : Str) (sp : Span)
    (h : sp ∈ add_formatted_text t) :
    ('\n' ∉ sp.text) ∧
    (sp.bold = false → ∃ w, w ≠ [] ∧ sp.text = w ++ [' ']) := by
  obtain ⟨line, part, hnl, hpart, hsp⟩ := shape_of_mem_add_formatted_text h
  have hsub : ∀ a, a ∈ sp.text → a = ' ' ∨ a ∈ part := by
    intro a ha
    rcases mem_processPart hsp with ⟨_, htext⟩ | ⟨w, _, htext, _, hwmem⟩
    · right
      rw [htext] at ha
      exact mem_of_mem_debold ha
    · rw [htext] at ha
      rcases List.mem_append.mp ha with ha | ha
      · right
        have hjs : a ∈ joinSep [' '] (splitSeq [' '] part) :=
          mem_joinSep hwmem ha
        rwa [joinSep_splitSeq] at hjs
      · left
        simpa using ha
  constructor
  · intro hmem
    rcases hsub '\n' hmem with hsp' | hmem'
    · exact absurd hsp' (by decide)
    · exact hnl (pyStrip_subset line (mem_of_mem_splitBold hpart hmem'))
  · intro hb
    rcases mem_processPart hsp with ⟨hb', _⟩ | ⟨w, _, htext, hne, _⟩
    · rw [hb] at hb'
      exact absurd hb' (by simp)
    · exact ⟨w, hne, htext⟩

/-- C2 (witness): the bold span emitted for `"a **b** c"` satisfies the
well-formedness properties. -/
theorem c2_rendering_total_wellformed_witness :
    (Span.mk true "b".toList ∈ add_formatted_text "a **b** c".toList) ∧
    ('\n' ∉ (Span.mk true "b".toList).text) ∧
    ((Span.mk true "b".toList).bold = false →
      ∃ w, w ≠ [] ∧ (Span.mk true "b".toList).text = w ++ [' ']) :=
  ⟨by decide, c2_rendering_total_wellformed "a **b** c".toList
    (Span.mk true "b".toList) (by decide)⟩

/-! ## Claim C8 -/

/-- C8 (counterexample): the very example given in the claim fails as stated — the
input `"a **b"` renders to span text `"a **b "` (each word re-emitted with
a trailing space), not to the unchanged string `"a **b"`. -/
theorem c8_example_trailing_space :
    concatText (add_formatted_text "a **b".toList) = "a **b ".toList ∧
    "a **b ".toList ≠ "a **b".toList :=
  ⟨by decide, by decide⟩

/-- C8 (amended): for a single-line input on which the bold regex finds no
match and whose stripped text is not itself `**`-delimited, the renderer
emits exactly one plain span per word, each word followed by a single
space, in order — unmatched bold markers are kept inside those words, and
no non-whitespace text is dropped. -/
theorem c8_unmatched_markers_stay_plain (s : Str) (h0 : '\n' ∉ s)
    (h1 : splitBold (pyStrip s) = [pyStrip s])
    (h2 : isBoldPart (pyStrip s) = false) :
    add_formatted_text s =
      ((splitSeq [' '] (pyStrip s)).filter (fun w => !w.isEmpty)).map
        (fun w => Span.mk false (w ++ [' '])) ∧
    removeWS (concatText (add_formatted_text s)) = removeWS s := by
  by_cases he : s.isEmpty = true
  · have hs : s = [] := List.isEmpty_iff.mp he
    subst hs
    exact ⟨by decide, by decide⟩
  · have hnl2 : hasSeq ['\n', '\n'] s = false := hasSeq_false_of_head _ h0
    have hnl1 : hasSeq ['\n'] s = false := hasSeq_false_of_head _ h0
    have e1 : add_formatted_text s = processPara s := by
      rw [add_formatted_text, if_neg he, splitSeq_single _ hnl2]
      simp [joinAll]
    by_cases hstrip : (pyStrip s).isEmpty = true
    · have e2 : processPara s = [] := by rw [processPara, if_pos hstrip]
      have hps : pyStrip s = [] := List.isEmpty_iff.mp hstrip
      constructor
      · rw [e1, e2, hps]
        decide
      · rw [e1, e2]
        exact (removeWS_eq_nil_of_strip hstrip).symm
    · have e2 : processPara s = processLine s := by
        rw [processPara, if_neg hstrip, splitSeq_single _ hnl1]
        simp [joinAll]
      have e3 : processLine s = processPart (pyStrip s) := by
        rw [processLine, if_neg hstrip, h1]
        simp [joinAll]
      have hb : ¬isBoldPart (pyStrip s) = true := by simp [h2]
      constructor
      · rw [e1, e2, e3, processPart, if_neg hb]
      · rw [e1, e2, e3, removeWS_processPart, stripPart, if_neg hb]
        exact removeWS_pyStrip s

/-- C8 (witness): the amended statement at the example from the claim,
`"a **b"`. -/
theorem c8_unmatched_markers_stay_plain_witness :
    ('\n' ∉ "a **b".toList) ∧
    splitBold (pyStrip "a **b".toList) = [pyStrip "a **b".toList] ∧
    isBoldPart (pyStrip "a **b".toList) = false ∧
    (add_formatted_text "a **b".toList =
      ((splitSeq [' '] (pyStrip "a **b".toList)).filter
        (fun w => !w.isEmpty)).map (fun w => Span.mk false (w ++ [' '])) ∧
     removeWS (concatText (add_formatted_text "a **b".toList)) =
       removeWS "a **b".toList) :=
  ⟨by decide, by decide, by decide,
    c8_unmatched_markers_stay_plain _ (by decide) (by decide) (by decide)⟩

/-! ## Claim C3 -/

/-- C3 (counterexample): when the first two queries succeed and the third
fails, the `research` field of the error result is the empty string — the
partial research text gathered from the successful queries (here the
non-empty section built from `"T1"`) is discarded, contrary to the
claim. -/
theorem c3_partial_text_discarded :
    (research_lp (some "k".toList) failThirdOracle "LP".toList).1.error =
      some "boom".toList ∧
    (research_lp (some "k".toList) failThirdOracle "LP".toList).1.research =
      [] ∧
    failThirdOracle 0 = .ok ⟨"T1".toList, []⟩ ∧
    sectionOverview ⟨"T1".toList, []⟩ ≠ [] :=
  ⟨by decide, by decide, rfl, by decide⟩

/-- C3 (amended): if query `i` (the first failure) fails, the remaining
queries are not issued, and a single error result is returned whose
`research` field is always the empty string (the partial text of earlier
successful queries is discarded); the run is never reported as success
(its `error` field is set). -/
theorem c3_failure_aborts_empty_research (key lp_name : Str)
    (oracle : Nat → Except Str QueryAns) (i : Nat) (e : Str) (hi : i < 3)
    (hok : ∀ j, j < i → ∃ r, oracle j = .ok r)
    (he : oracle i = .error e) :
    (research_lp (some key) oracle lp_name).1 =
      ⟨some e, [], none, some lp_name⟩ ∧
    (research_lp (some key) oracle lp_name).2 = List.range (i + 1) := by
  interval_cases i
  · refine ⟨?_, ?_⟩ <;> simp [research_lp, he, List.range_succ]
  · obtain ⟨r0, h0⟩ := hok 0 (by norm_num)
    refine ⟨?_, ?_⟩ <;> simp [research_lp, h0, he, List.range_succ]
  · obtain ⟨r0, h0⟩ := hok 0 (by norm_num)
    obtain ⟨r1, h1⟩ := hok 1 (by norm_num)
    refine ⟨?_, ?_⟩ <;> simp [research_lp, h0, h1, he, List.range_succ]

/-- C3 (witness): the amended statement at the concrete oracle failing on
query 2 after two successes. -/
theorem c3_failure_aborts_empty_research_witness :
    (research_lp (some "k".toList) failThirdOracle "LP".toList).1 =
      ⟨some "boom".toList, [], none, some "LP".toList⟩ ∧
    (research_lp (some "k".toList) failThirdOracle "LP".toList).2 =
      List.range 3 :=
  c3_failure_aborts_empty_research "k".toList "LP".toList failThirdOracle 2
    "boom".toList (by norm_num)
    (fun j hj => by
      interval_cases j
      · exact ⟨_, rfl⟩
      · exact ⟨_, rfl⟩)
    rfl

/-! ## Claim C4 -/

/-- C4 (counterexample): no escaping is performed — for the field text
`"<b>x"` the emitted markup contains the raw `"<b>"` substring and no
`"&lt;"` entity, so a literal `<` in input text is emitted as live
markup. -/
theorem c4_no_escaping :
    highlight_box_markup "<b>x".toList =
      "<div class=\"highlight-box\"><b>x</div>".toList ∧
    hasSeq "&lt;".toList (highlight_box_markup "<b>x".toList) = false ∧
    hasSeq "<b>".toList (highlight_box_markup "<b>x".toList) = true :=
  ⟨by decide, by decide, by decide⟩

/-- C4 (amended): the HTML/CSS rendering path performs no escaping at all —
the field text is interpolated verbatim between the fixed `div` wrapper
markup, so every `<`, `>`, `&` and `"` in the input appears unchanged in
the emitted markup. -/
theorem c4_interpolation_verbatim (s : Str) :
    highlight_box_markup s = divOpen ++ s ++ divClose ∧
    containsSub s (highlight_box_markup s) :=
  ⟨rfl, divOpen, divClose, rfl⟩

/-! ## Claim C5 -/

/-- C5 (counterexample): the height estimate is not a rounded-up line
count — for a 40-character text the code computes `lines = 1.5` and
`box_height = max(19, 20) = 20`, whereas rounding the wrap estimate up to
an integer line count gives `max(22, 20) = 22`. -/
theorem c5_height_not_rounded_up :
    boxHeight (List.replicate 40 'a') = 20 ∧
    roundedUpBoxHeight (List.replicate 40 'a') = 22 ∧
    boxHeight (List.replicate 40 'a') ≠
      roundedUpBoxHeight (List.replicate 40 'a') := by
  have hcount : (List.replicate 40 'a').count '\n' = 0 := by decide
  have hlen : (List.replicate 40 'a').length = 40 := by decide
  have hceil : ⌈((40 : ℕ) : ℚ) / 80⌉ = 1 := by
    rw [show (((40 : ℕ) : ℚ) / 80) = 1 / 2 by norm_num, Int.ceil_eq_iff]
    norm_num
  have h20 : boxHeight (List.replicate 40 'a') = 20 := by
    rw [boxHeight, hcount, hlen]
    rw [show ((((40 : ℕ) : ℚ)) / 80 + ((0 : ℕ) : ℚ) + 1) * 6 + 10 = 19 by
      norm_num]
    exact max_eq_right (by norm_num)
  have h22 : roundedUpBoxHeight (List.replicate 40 'a') = 22 := by
    rw [roundedUpBoxHeight, hcount, hlen, hceil]
    rw [show (((1 : ℤ) : ℚ) + ((0 : ℕ) : ℚ) + 1) * 6 + 10 = 22 by norm_num]
    exact max_eq_left (by norm_num)
  exact ⟨h20, h22, by rw [h20, h22]; norm_num⟩

/-- C5 (amended): the box height is computed in full — from the heuristic
estimate `len(text)/80 + newline count + 1` (a fractional value, not a
rounded-up line count), floored at 20 — before the background rectangle is
drawn, and the rectangle and left border precede the text cells in the
drawing trace; the height is always at least 20 and at least the
heuristic value. -/
theorem c5_full_height_before_rect (x y : ℚ) (t : Str) :
    add_highlight_box x y t =
      [ DrawOp.rect x y 190 (boxHeight t) true,
        DrawOp.borderLine x y x (y + boxHeight t),
        DrawOp.textCells (add_formatted_text t),
        DrawOp.setY (y + boxHeight t + 4) ] ∧
    20 ≤ boxHeight t ∧
    ((t.length : ℚ) / 80 + (t.count '\n' : ℚ) + 1) * 6 + 10 ≤ boxHeight t :=
  ⟨rfl, le_max_right _ _, le_max_left _ _⟩

/-! ## Claim C6 -/

/-- C6 (confirmed): citation merging with `dict.fromkeys` removes
duplicates keeping the first occurrence and preserves first-seen order
across the query sequence — on the example from the spec, `[A,B,A,C]` then
`[B,D]` merges to `[A,B,C,D]`; in general the merged list has no
duplicates, is a subsequence of the concatenated input (so order is
stable), and contains exactly the elements of the input. -/
theorem c6_dedup_order_stable (A B C D : String) (h1 : A ≠ B) (h2 : A ≠ C)
    (h3 : A ≠ D) (h4 : B ≠ C) (h5 : B ≠ D) (h6 : C ≠ D) :
    dedupFirst ([A, B, A, C] ++ [B, D]) = [A, B, C, D] ∧
    ∀ l : List String, (dedupFirst l).Nodup ∧
      List.Sublist (dedupFirst l) l ∧ (∀ a, a ∈ dedupFirst l ↔ a ∈ l) := by
  constructor
  · simp [dedupFirst, h1.symm, h2.symm, h3.symm, h4.symm, h5.symm, h6.symm]
  · intro l
    exact ⟨dedupFirst_nodup l, dedupFirst_sublist l, fun a => dedupFirst_mem l a⟩

/-- C6 (witness): the merge at concrete distinct URLs. -/
theorem c6_dedup_order_stable_witness :
    dedupFirst (["a", "b", "a", "c"] ++ ["b", "d"]) = ["a", "b", "c", "d"] ∧
    ∀ l : List String, (dedupFirst l).Nodup ∧
      List.Sublist (dedupFirst l) l ∧ (∀ a, a ∈ dedupFirst l ↔ a ∈ l) :=
  c6_dedup_order_stable "a" "b" "c" "d" (by decide) (by decide) (by decide)
    (by decide) (by decide) (by decide)

/-! ## Claim C7 -/

/-- C7 (confirmed): for every pitch record (any subset of the nine keys
may be missing), both renderers complete and produce a full document.
The markdown document contains every section heading, and immediately
after the heading segment of each field it contains exactly the
rendered value; the PDF trace contains every section header, always
consists of the complete sequence of 21 drawing operations, and
immediately after the section header of each field comes the operation
rendering exactly the value of that field.  In both, the rendered value is
the fixed placeholder `"N/A"` precisely when the key is missing, and the
stored text when it is present; both renderers are total functions, so
no exception is possible. -/
theorem c7_render_complete_with_placeholder (lp_name date genDate : Str)
    (research pitch : List (Str × Str)) :
    (∀ h ∈ sectionHeads,
      containsSub h (format_pitch_output lp_name date research pitch)) ∧
    (∀ h ∈ pdfSectionHeads,
      PdfOp.sectionHeader h ∈ generate_pdf lp_name genDate pitch research) ∧
    (generate_pdf lp_name genDate pitch research).length = 21 ∧
    (∀ k ∈ pitchKeys,
      containsSub (mdLeadIn k ++ pget pitch k)
        (format_pitch_output lp_name date research pitch) ∧
      sliceOf (pdfFieldSlice pitch k)
        (generate_pdf lp_name genDate pitch research) ∧
      (pitch.lookup k = none → pget pitch k = naText) ∧
      (∀ v, pitch.lookup k = some v → pget pitch k = v)) := by
  refine ⟨?_, ?_, rfl, ?_⟩
  · intro h hh
    simp only [sectionHeads, List.mem_cons, List.not_mem_nil, or_false] at hh
    rcases hh with rfl | rfl | rfl | rfl | rfl | rfl | rfl | rfl | rfl
    · exact containsSub_trans
        (show containsSub "## LP Profile Summary".toList
            "*\n\n---\n\n## LP Profile Summary\n\n".toList from
          ⟨"*\n\n---\n\n".toList, "\n\n".toList, by decide⟩)
        (containsSub_joinAll (by simp [pitchSegments]))
    · exact containsSub_trans
        (show containsSub "## Opening Hook".toList
            "\n\n---\n\n## Opening Hook\n\n> ".toList from
          ⟨"\n\n---\n\n".toList, "\n\n> ".toList, by decide⟩)
        (containsSub_joinAll (by simp [pitchSegments]))
    · exact containsSub_trans
        (show containsSub "## Investment Thesis Framing".toList
            "\n\n---\n\n## Investment Thesis Framing\n\n".toList from
          ⟨"\n\n---\n\n".toList, "\n\n".toList, by decide⟩)
        (containsSub_joinAll (by simp [pitchSegments]))
    · exact containsSub_trans
        (show containsSub "## Key Market Tailwinds to Emphasise".toList
            "\n\n---\n\n## Key Market Tailwinds to Emphasise\n\n".toList from
          ⟨"\n\n---\n\n".toList, "\n\n".toList, by decide⟩)
        (containsSub_joinAll (by simp [pitchSegments]))
    · exact containsSub_trans
        (show containsSub "## Team & Advisors to Feature".toList
            "\n\n---\n\n## Team & Advisors to Feature\n\n".toList from
          ⟨"\n\n---\n\n".toList, "\n\n".toList, by decide⟩)
        (containsSub_joinAll (by simp [pitchSegments]))
    · exact containsSub_trans
        (show containsSub "## Value-Add Framing".toList
            "\n\n---\n\n## Value-Add Framing\n\n".toList from
          ⟨"\n\n---\n\n".toList, "\n\n".toList, by decide⟩)
        (containsSub_joinAll (by simp [pitchSegments]))
    · exact containsSub_trans
        (show containsSub "## Anticipated Questions & Answers".toList
            "\n\n---\n\n## Anticipated Questions & Answers\n\n".toList from
          ⟨"\n\n---\n\n".toList, "\n\n".toList, by decide⟩)
        (containsSub_joinAll (by simp [pitchSegments]))
    · exact containsSub_trans
        (show containsSub "## Conversation Starters".toList
            "\n\n---\n\n## Conversation Starters\n\n".toList from
          ⟨"\n\n---\n\n".toList, "\n\n".toList, by decide⟩)
        (containsSub_joinAll (by simp [pitchSegments]))
    · exact containsSub_trans
        (show containsSub "## Potential Concerns to Address".toList
            "\n\n---\n\n## Potential Concerns to Address\n\n".toList from
          ⟨"\n\n---\n\n".toList, "\n\n".toList, by decide⟩)
        (containsSub_joinAll (by simp [pitchSegments]))
  · intro h hh
    simp only [pdfSectionHeads, List.mem_cons, List.not_mem_nil, or_false] at hh
    rcases hh with rfl | rfl | rfl | rfl | rfl | rfl | rfl | rfl | rfl <;>
      simp [generate_pdf]
  · intro k hk
    have hsub : ∀ k0 : Str,
        (pitch.lookup k0 = none → pget pitch k0 = naText) ∧
        (∀ v, pitch.lookup k0 = some v → pget pitch k0 = v) := by
      intro k0
      constructor
      · intro hnone
        rw [pget, hnone]
        rfl
      · intro v hv
        rw [pget, hv]
        rfl
    simp only [pitchKeys, List.mem_cons, List.not_mem_nil, or_false] at hk
    rcases hk with rfl | rfl | rfl | rfl | rfl | rfl | rfl | rfl | rfl
    · refine ⟨?_, ?_, (hsub _).1, (hsub _).2⟩
      · rw [show mdLeadIn "lp_summary".toList =
            "*\n\n---\n\n## LP Profile Summary\n\n".toList from rfl]
        simp only [format_pitch_output, pitchSegments]
        iterate 4 apply containsSub_joinAll_cons
        exact containsSub_joinAll_pair _ _ _
      · rw [show pdfFieldSlice pitch "lp_summary".toList =
            [ PdfOp.sectionHeader "LP Profile".toList,
              PdfOp.highlightBox (pget pitch "lp_summary".toList)
                "default".toList ] from rfl]
        simp only [generate_pdf]
        iterate 2 apply sliceOf_cons
        exact sliceOf_self_append _ _
    · refine ⟨?_, ?_, (hsub _).1, (hsub _).2⟩
      · rw [show mdLeadIn "opening_hook".toList =
            "\n\n---\n\n## Opening Hook\n\n> ".toList from rfl]
        simp only [format_pitch_output, pitchSegments]
        iterate 6 apply containsSub_joinAll_cons
        exact containsSub_joinAll_pair _ _ _
      · rw [show pdfFieldSlice pitch "opening_hook".toList =
            [ PdfOp.sectionHeader "Opening Hook".toList,
              PdfOp.highlightBox (pget pitch "opening_hook".toList)
                "hook".toList ] from rfl]
        simp only [generate_pdf]
        iterate 4 apply sliceOf_cons
        exact sliceOf_self_append _ _
    · refine ⟨?_, ?_, (hsub _).1, (hsub _).2⟩
      · rw [show mdLeadIn "thesis_framing".toList =
            "\n\n---\n\n## Investment Thesis Framing\n\n".toList from rfl]
        simp only [format_pitch_output, pitchSegments]
        iterate 8 apply containsSub_joinAll_cons
        exact containsSub_joinAll_pair _ _ _
      · rw [show pdfFieldSlice pitch "thesis_framing".toList =
            [ PdfOp.sectionHeader "Investment Thesis Framing".toList,
              PdfOp.bodyText (pget pitch "thesis_framing".toList) ] from rfl]
        simp only [generate_pdf]
        iterate 6 apply sliceOf_cons
        exact sliceOf_self_append _ _
    · refine ⟨?_, ?_, (hsub _).1, (hsub _).2⟩
      · rw [show mdLeadIn "tailwinds_emphasis".toList =
            "\n\n---\n\n## Key Market Tailwinds to Emphasise\n\n".toList from
            rfl]
        simp only [format_pitch_output, pitchSegments]
        iterate 10 apply containsSub_joinAll_cons
        exact containsSub_joinAll_pair _ _ _
      · rw [show pdfFieldSlice pitch "tailwinds_emphasis".toList =
            [ PdfOp.sectionHeader "Market Tailwinds to Emphasise".toList,
              PdfOp.bodyText (pget pitch "tailwinds_emphasis".toList) ] from
            rfl]
        simp only [generate_pdf]
        iterate 8 apply sliceOf_cons
        exact sliceOf_self_append _ _
    · refine ⟨?_, ?_, (hsub _).1, (hsub _).2⟩
      · rw [show mdLeadIn "team_highlights".toList =
            "\n\n---\n\n## Team & Advisors to Feature\n\n".toList from rfl]
        simp only [format_pitch_output, pitchSegments]
        iterate 12 apply containsSub_joinAll_cons
        exact containsSub_joinAll_pair _ _ _
      · rw [show pdfFieldSlice pitch "team_highlights".toList =
            [ PdfOp.sectionHeader "Team & Advisors to Feature".toList,
              PdfOp.bodyText (pget pitch "team_highlights".toList) ] from rfl]
        simp only [generate_pdf]
        iterate 10 apply sliceOf_cons
        exact sliceOf_self_append _ _
    · refine ⟨?_, ?_, (hsub _).1, (hsub _).2⟩
      · rw [show mdLeadIn "value_add_framing".toList =
            "\n\n---\n\n## Value-Add Framing\n\n".toList from rfl]
        simp only [format_pitch_output, pitchSegments]
        iterate 14 apply containsSub_joinAll_cons
        exact containsSub_joinAll_pair _ _ _
      · rw [show pdfFieldSlice pitch "value_add_framing".toList =
            [ PdfOp.sectionHeader "Value-Add Framing".toList,
              PdfOp.bodyText (pget pitch "value_add_framing".toList) ] from
            rfl]
        simp only [generate_pdf]
        iterate 12 apply sliceOf_cons
        exact sliceOf_self_append _ _
    · refine ⟨?_, ?_, (hsub _).1, (hsub _).2⟩
      · rw [show mdLeadIn "anticipated_questions".toList =
            "\n\n---\n\n## Anticipated Questions & Answers\n\n".toList from
            rfl]
        simp only [format_pitch_output, pitchSegments]
        iterate 16 apply containsSub_joinAll_cons
        exact containsSub_joinAll_pair _ _ _
      · rw [show pdfFieldSlice pitch "anticipated_questions".toList =
            [ PdfOp.sectionHeader "Anticipated Questions".toList,
              PdfOp.bodyText (pget pitch "anticipated_questions".toList) ] from
            rfl]
        simp only [generate_pdf]
        iterate 14 apply sliceOf_cons
        exact sliceOf_self_append _ _
    · refine ⟨?_, ?_, (hsub _).1, (hsub _).2⟩
      · rw [show mdLeadIn "conversation_starters".toList =
            "\n\n---\n\n## Conversation Starters\n\n".toList from rfl]
        simp only [format_pitch_output, pitchSegments]
        iterate 18 apply containsSub_joinAll_cons
        exact containsSub_joinAll_pair _ _ _
      · rw [show pdfFieldSlice pitch "conversation_starters".toList =
            [ PdfOp.sectionHeader "Conversation Starters".toList,
              PdfOp.bodyText (pget pitch "conversation_starters".toList) ] from
            rfl]
        simp only [generate_pdf]
        iterate 16 apply sliceOf_cons
        exact sliceOf_self_append _ _
    · refine ⟨?_, ?_, (hsub _).1, (hsub _).2⟩
      · rw [show mdLeadIn "risks_to_address".toList =
            "\n\n---\n\n## Potential Concerns to Address\n\n".toList from rfl]
        simp only [format_pitch_output, pitchSegments]
        iterate 20 apply containsSub_joinAll_cons
        exact containsSub_joinAll_pair _ _ _
      · rw [show pdfFieldSlice pitch "risks_to_address".toList =
            [ PdfOp.sectionHeader "Potential Concerns to Address".toList,
              PdfOp.highlightBox (pget pitch "risks_to_address".toList)
                "warning".toList ] from rfl]
        simp only [generate_pdf]
        iterate 18 apply sliceOf_cons
        exact sliceOf_self_append _ _

/-- C7 (witness): a record missing three of its nine keys still renders
both documents, with the field slot of the missing key `thesis_framing`
(heading segment in the markdown, header-plus-body pair in the PDF
trace) carrying the rendered value, which the substitution conjuncts
force to be the placeholder. -/
theorem c7_render_complete_with_placeholder_witness :
    containsSub (mdLeadIn "thesis_framing".toList ++
        pget sixKeyPitch "thesis_framing".toList)
      (format_pitch_output "Acme".toList "2026-10-12".toList []
        sixKeyPitch) ∧
    sliceOf (pdfFieldSlice sixKeyPitch "thesis_framing".toList)
      (generate_pdf "Acme".toList "12 October 2026".toList sixKeyPitch []) ∧
    (sixKeyPitch.lookup "thesis_framing".toList = none →
      pget sixKeyPitch "thesis_framing".toList = naText) ∧
    (∀ v, sixKeyPitch.lookup "thesis_framing".toList = some v →
      pget sixKeyPitch "thesis_framing".toList = v) :=
  (c7_render_complete_with_placeholder "Acme".toList "2026-10-12".toList
    "12 October 2026".toList [] sixKeyPitch).2.2.2 "thesis_framing".toList
    (by decide)

/-! ## Claim C9 -/

/-- C9 (counterexample): the structured error does not carry the raw
response — for the fenced response `"```jsonxbad```"` the recorded
`raw_response` is the fence-stripped text `"xbad"`, not the original
response text. -/
theorem c9_raw_is_stripped :
    generate_pitch_parse (V := Unit) (fun _ => none)
      "```jsonxbad```".toList = .errorRaw "xbad".toList ∧
    "xbad".toList ≠ "```jsonxbad```".toList :=
  ⟨by decide, by decide⟩

/-- C9 (amended): for every response, the synthesizer strips an optional
code fence and parses the remainder; whenever that parse fails it returns
a structured error carrying the fence-stripped response text (equal to
the raw response whenever no fence marker occurs), and never raises. -/
theorem c9_parse_failure_structured (V : Type) (jparse : Str → Option V)
    (content : Str) (h : jparse (stripFence content) = none) :
    generate_pitch_parse jparse content = .errorRaw (stripFence content) ∧
    (hasSeq ticks content = false → stripFence content = content) := by
  constructor
  · simp [generate_pitch_parse, h]
  · intro ht
    have hj : hasSeq jsonFence content = false := by
      cases hcon : hasSeq jsonFence content with
      | false => rfl
      | true =>
        have hmono := hasSeq_mono
          (show ticks <+: jsonFence from ⟨"json".toList, by decide⟩) hcon
        rw [hmono] at ht
        exact absurd ht (by simp)
    rw [stripFence]
    simp [hj, ht]

/-- C9 (witness): the amended statement at a fence-free response with a
failing parse. -/
theorem c9_parse_failure_structured_witness :
    generate_pitch_parse (V := Unit) (fun _ => none)
      "plain response".toList =
      .errorRaw (stripFence "plain response".toList) ∧
    (hasSeq ticks "plain response".toList = false →
      stripFence "plain response".toList = "plain response".toList) :=
  c9_parse_failure_structured Unit (fun _ => none) "plain response".toList rfl

/-! ## Claim C10 -/

/-- C10 (counterexample): with two `"```json"` occurrences the code does
not parse the text strictly between the first marker and the next
`"```"` — for `"```jsona````jsonz"` the code extracts `"a`"` (cutting
inside the segment delimited by the `"```json"` occurrences), while the
text strictly between the first marker and the next `"```"` is `"a"`. -/
theorem c10_overlap_divergence :
    stripFence "```jsona````jsonz".toList = "a`".toList ∧
    specExtract "```jsona````jsonz".toList = "a".toList ∧
    stripFence "```jsona````jsonz".toList ≠
      specExtract "```jsona````jsonz".toList :=
  ⟨by decide, by decide, by decide⟩

/-- C10 (amended): whenever the response contains `"```json"` exactly once
(no second non-overlapping occurrence after it), exactly the text between
that marker and the next `"```"` (to the end when none follows) is
JSON-parsed, everything before and after being discarded; otherwise, when
the response contains `"```"` but no `"```json"`, exactly the text between
the first and second `"```"` is parsed. -/
theorem c10_fence_extraction_between_markers (content : Str) :
    (hasSeq jsonFence content = true →
      hasSeq jsonFence (afterFirstSeq jsonFence content) = false →
      stripFence content = specExtract content) ∧
    (hasSeq jsonFence content = false → hasSeq ticks content = true →
      stripFence content = upToFirstSeq ticks (afterFirstSeq ticks content)) := by
  constructor
  · intro h1 h2
    rw [stripFence]
    simp only [h1, if_true]
    rw [splitSeq_getD_one jsonFence (by decide) h1,
      upToFirstSeq_eq_self jsonFence h2,
      splitSeq_getD_zero ticks (by decide)]
    rfl
  · intro h1 h2
    rw [stripFence]
    simp only [h1, h2, Bool.false_eq_true, if_false, if_true]
    rw [splitSeq_getD_one ticks (by decide) h2,
      splitSeq_getD_zero ticks (by decide)]
    have hfix : hasSeq ticks
        (upToFirstSeq ticks (afterFirstSeq ticks content)) = false :=
      hasSeq_upToFirstSeq '`' ['`', '`'] _
    rw [upToFirstSeq_eq_self ticks hfix]

/-- C10 (witness): the extraction at a response with one fenced block. -/
theorem c10_fence_extraction_between_markers_witness :
    stripFence "x```jsonABC```y".toList =
      specExtract "x```jsonABC```y".toList :=
  (c10_fence_extraction_between_markers "x```jsonABC```y".toList).1
    (by decide) (by decide)

end LPPitch
